import Mathlib

/-!
Verification development for the Graphify scheduling core.

Shallow embedding conventions:
* A JavaScript `Date` / luxon `DateTime` instant is a number of milliseconds
  (an `Int`); the timezone is the fixed local offset 0, matching the spec's
  "no timezone-database correctness guaranteed beyond simple offset
  arithmetic".
* JavaScript floating-point numbers that can be fractional (pattern cell
  values, `density`, `Math.random()` results) are rationals (`Rat`).
* `Math.random()` is modelled by an explicit stream `rng : Nat -> Rat`
  together with a cursor `k : Nat` threaded through every function that
  draws randomness, in the exact order the source draws it.  Each value is
  assumed (where a theorem needs it) to lie in `[0, 1)`, the contract of
  `Math.random()`.
* Fallible code (`throw` in a `try` block) is `Except String`.
* `Array.prototype.sort` with comparator `(a, b) => key a - key b` is a
  stable ascending sort by `key`; it is modelled by `List.insertionSort`,
  which is stable and sorts ascending for the corresponding `<=`.
-/

namespace Graphify

/-- Milliseconds in one calendar day. -/
def msPerDay : ℤ := 86400000

/-- Milliseconds in one hour. -/
def msPerHour : ℤ := 3600000

/-- Local hour-of-day of a millisecond instant (luxon `dt.hour`,
JS `date.getHours()`). -/
def hourOf (t : ℤ) : ℤ := (Int.fdiv t msPerHour) % 24

/-- Luxon weekday of a millisecond instant: Monday = 1 .. Sunday = 7.
1970-01-01 (day number 0) was a Thursday (= 4). -/
def luxonWeekday (t : ℤ) : ℤ := (Int.fdiv t msPerDay + 3) % 7 + 1

/-- Luxon `dt.set {hour, minute, second}` on a millisecond instant: replaces
the time-of-day components, keeping the calendar day and the
millisecond-within-second component. -/
def setTime (t h mi s : ℤ) : ℤ :=
  (Int.fdiv t msPerDay) * msPerDay + h * msPerHour + mi * 60000 + s * 1000 + t % 1000

/-- JS `Math.ceil (a / b)` for an integer numerator and positive integer
denominator (used for `Math.ceil(endDt.diff(startDt, 'days').days)` where
luxon's fractional day count is `(end - start) / 86400000`). -/
def ceilDiv (a b : ℤ) : ℤ := -((-a).fdiv b)

/-- JS `Math.round` on a rational. -/
def jsRound (q : ℚ) : ℤ := ⌊q + 1/2⌋

namespace DateUtils

/-- Source: `src/graphify-cli/src/utils/date-utils.ts`, `isWeekend`
(the copy of the shared `date-utils` module imported by
`shared/src/utils/scheduler.ts`): luxon weekday >= 6, i.e. Saturday or
Sunday. -/
def isWeekend (t : ℤ) : Bool := luxonWeekday t ≥ 6

/-- Source: `src/graphify-cli/src/utils/date-utils.ts`, `isBusinessHours`:
`dt.hour >= 9 && dt.hour < 17`. -/
def isBusinessHours (t : ℤ) : Bool := hourOf t ≥ 9 ∧ hourOf t < 17

/-- Body of the generation loop of `generateRandomCommitTimes`
(`src/graphify-cli/src/utils/date-utils.ts`): for each of `n` iterations,
draw the hour (one draw if `workHoursOnly`; otherwise one draw for the 70%
business-hours biasing test plus one draw for the hour), then the minute
and the second, and set those components on the base instant. -/
def genCommitTimesLoop (rng : Nat → ℚ) (baseDt : ℤ) (workHoursOnly : Bool) :
    Nat → Nat → List ℤ × Nat
  | 0, k => ([], k)
  | n + 1, k =>
    let hk : ℤ × Nat :=
      if workHoursOnly then (9 + ⌊rng k * 8⌋, k + 1)
      else if rng k < 7/10 then (9 + ⌊rng (k + 1) * 8⌋, k + 2)
      else (⌊rng (k + 1) * 24⌋, k + 2)
    let minute : ℤ := ⌊rng hk.2 * 60⌋
    let second : ℤ := ⌊rng (hk.2 + 1) * 60⌋
    let commitTime := setTime baseDt hk.1 minute second
    let rest := genCommitTimesLoop rng baseDt workHoursOnly n (hk.2 + 2)
    (commitTime :: rest.1, rest.2)

/-- Source: `src/graphify-cli/src/utils/date-utils.ts`,
`generateRandomCommitTimes`: throws when `count < 0`, otherwise generates
`count` instants on the base date and returns them sorted ascending. -/
def generateRandomCommitTimes (rng : Nat → ℚ) (baseDate : ℤ) (count : ℤ)
    (workHoursOnly : Bool) (k : Nat) : Except String (List ℤ × Nat) :=
  if count < 0 then .error "Count must be a non-negative number"
  else
    let res := genCommitTimesLoop rng baseDate workHoursOnly count.toNat k
    .ok (List.insertionSort (fun a b : ℤ => a ≤ b) res.1, res.2)

end DateUtils

namespace Scheduler

/-- Source: `src/shared/src/utils/scheduler.ts`, `CommitScheduleOptions`
(the fields the mapper reads, with the source's defaults).  `pattern` cells
are rationals because JS numbers may be fractional; a ragged row makes
`pattern[row][col]` read `undefined`, modelled by `List.get?` returning
`none`. -/
structure CommitScheduleOptions where
  startDate : ℤ
  endDate : ℤ
  pattern : List (List ℚ)
  density : ℚ := 7/10
  randomize : Bool := true
  workHoursOnly : Bool := false
  avoidWeekends : Bool := true
  maxCommitsPerDay : ℤ := 5

/-- Source: `src/shared/src/utils/scheduler.ts`, `ScheduledCommit`.  The
message string is `"Commit for pattern cell [row,col]"`; since it is
determined by (and determines) the interpolated pair, it is modelled by the
two indices `msgRow`, `msgCol`. -/
structure ScheduledCommit where
  date : ℤ
  weight : ℚ
  msgRow : Nat
  msgCol : Nat

/-- Number of columns: `pattern[0].length`. -/
def colsOf (o : CommitScheduleOptions) : ℕ := (o.pattern.headD []).length

/-- Source: scheduler.ts line 74,
`totalDays = Math.ceil(endDt.diff(startDt, 'days').days)` where the luxon
fractional day count is `(endDate - startDate) / 86400000`. -/
def totalDaysOf (o : CommitScheduleOptions) : ℤ :=
  ceilDiv (o.endDate - o.startDate) msPerDay

/-- Source: scheduler.ts line 81,
`daysPerCell = Math.max(1, Math.floor(totalDays / (rows * cols)))`. -/
def daysPerCellOf (o : CommitScheduleOptions) : ℤ :=
  max 1 (Int.fdiv (totalDaysOf o) ((o.pattern.length : ℤ) * (colsOf o : ℤ)))

/-- Source: scheduler.ts line 109, the noise factor
`randomize ? (0.5 + Math.random()) : 1` with the drawn random `r`. -/
def noiseFactor (randomize : Bool) (r : ℚ) : ℚ :=
  if randomize then 1/2 + r else 1

/-- Source: scheduler.ts lines 107-110,
`commitsForCell = Math.min(maxCommitsPerDay, Math.ceil(cellValue * density * noise))`. -/
def commitsForCell (cellValue density : ℚ) (randomize : Bool) (r : ℚ) (cap : ℤ) : ℤ :=
  min cap ⌈cellValue * density * noiseFactor randomize r⌉

def weekendGate (rng : Nat → ℚ) (o : CommitScheduleOptions) (baseDate : ℤ)
    (k : Nat) : Option Nat :=
  if o.avoidWeekends && DateUtils.isWeekend baseDate then
    (if rng k > 3/10 then none else some (k + 1))
  else some k

/-- The noise draw of scheduler.ts line 109: the drawn random (and advanced
cursor) when `randomize`, the neutral 0 otherwise (the ternary's false
branch draws nothing). -/
def noiseDraw (rng : Nat → ℚ) (randomize : Bool) (k : Nat) : ℚ × Nat :=
  if randomize then (rng k, k + 1) else (0, k)

/-- Source: scheduler.ts lines 94-126, the body of the per-cell loop after
the truncation check has already failed.  `cellVal?` is `pattern[row][col]`
(`none` for a ragged row's `undefined`).  Order of effects, as in source:

1. `if (cellValue <= 0) continue` (not taken for `undefined`, since
   `undefined <= 0` is `false`);
2. compute `baseDate = startDt.plus({days: cellIndex * daysPerCell})`;
3. weekend skip: when `avoidWeekends && isWeekend(baseDate)`, draw one
   random and skip the cell when it is `> 0.3`;
4. draw the noise random when `randomize` (still drawn on the `undefined`
   path: the ternary is evaluated inside the arithmetic);
5. for `undefined`, the count is `NaN`: `Math.ceil(NaN) = NaN`,
   `Math.min(5, NaN) = NaN`, `NaN < 0` is `false` and `for (i = 0; i < NaN)`
   never iterates, so no commit and no error;
6. otherwise call `generateRandomCommitTimes` with the computed count and
   emit one `ScheduledCommit` per returned time.

The weekend skip (step 3) and the noise draw (step 4) are the named
definitions `weekendGate` and `noiseDraw` just above `processCell`. -/
def processCell (rng : Nat → ℚ) (o : CommitScheduleOptions) (dpc : ℤ)
    (row col : Nat) (cellVal? : Option ℚ) (k : Nat) :
    Except String (List ScheduledCommit × Nat) :=
  match cellVal? with
  | some v =>
    if v ≤ 0 then .ok ([], k)
    else
      let baseDate := o.startDate + ((row * colsOf o + col : ℕ) : ℤ) * dpc * msPerDay
      match weekendGate rng o baseDate k with
      | none => .ok ([], k + 1)
      | some k1 =>
        let rk := noiseDraw rng o.randomize k1
        let count := commitsForCell v o.density o.randomize rk.1 o.maxCommitsPerDay
        match DateUtils.generateRandomCommitTimes rng baseDate count o.workHoursOnly rk.2 with
        | .error e => .error e
        | .ok (times, k2) =>
          .ok (times.map (fun t => ⟨t, v, row, col⟩), k2)
  | none =>
    let baseDate := o.startDate + ((row * colsOf o + col : ℕ) : ℤ) * dpc * msPerDay
    match weekendGate rng o baseDate k with
    | none => .ok ([], k + 1)
    | some k1 => .ok ([], (noiseDraw rng o.randomize k1).2)

/-- Source: scheduler.ts lines 87-127, the inner `for (col …)` loop of one
row.  `rem` counts the columns still to visit (the loop runs `col < cols`
with `cols = pattern[0].length`).  Before each cell the truncation check
`cellIndex * daysPerCell >= totalDays` runs; when it fires, `break` ends
this row's loop (the outer row loop continues). -/
def processCells (rng : Nat → ℚ) (o : CommitScheduleOptions) (dpc td : ℤ)
    (row : Nat) (rowCells : List ℚ) :
    Nat → Nat → Nat → Except String (List ScheduledCommit × Nat)
  | _, 0, k => .ok ([], k)
  | col, rem + 1, k =>
    if ((row * colsOf o + col : ℕ) : ℤ) * dpc ≥ td then .ok ([], k)
    else
      match processCell rng o dpc row col (rowCells.get? col) k with
      | .error e => .error e
      | .ok (cs, k1) =>
        match processCells rng o dpc td row rowCells (col + 1) rem k1 with
        | .error e => .error e
        | .ok (rest, k2) => .ok (cs ++ rest, k2)

/-- Source: scheduler.ts lines 86-128, the outer `for (row …)` loop. -/
def processRows (rng : Nat → ℚ) (o : CommitScheduleOptions) (dpc td : ℤ) :
    Nat → List (List ℚ) → Nat → Except String (List ScheduledCommit × Nat)
  | _, [], k => .ok ([], k)
  | row, rowCells :: rest, k =>
    match processCells rng o dpc td row rowCells 0 (colsOf o) k with
    | .error e => .error e
    | .ok (cs, k1) =>
      match processRows rng o dpc td (row + 1) rest k1 with
      | .error e => .error e
      | .ok (more, k2) => .ok (cs ++ more, k2)

/-- Source: `src/shared/src/utils/scheduler.ts`, `mapPatternToSchedule`,
the `try` block: structural checks, the two nested loops, and the final
ascending sort by `date.toMillis()`. -/
def mapPatternToScheduleBody (o : CommitScheduleOptions) (rng : Nat → ℚ) :
    Except String (List ScheduledCommit) :=
  if o.pattern.length = 0 then .error "Pattern must have at least one row"
  else if colsOf o = 0 then .error "Pattern must have at least one column"
  else if totalDaysOf o < 1 then .error "End date must be after start date"
  else
    match processRows rng o (daysPerCellOf o) (totalDaysOf o) 0 o.pattern 0 with
    | .error e => .error e
    | .ok (commits, _) =>
      .ok (List.insertionSort (fun a b => a.date ≤ b.date) commits)

/-- Source: `src/shared/src/utils/scheduler.ts`, `mapPatternToSchedule`:
the `try` block plus the `catch` that rewraps any thrown message. -/
def mapPatternToSchedule (o : CommitScheduleOptions) (rng : Nat → ℚ) :
    Except String (List ScheduledCommit) :=
  match mapPatternToScheduleBody o rng with
  | .error e => .error ("Failed to create commit schedule: " ++ e)
  | .ok commits => .ok commits

end Scheduler

/-- An advisory issue reported by `checkScheduleAuthenticity`
(scheduler.ts lines 143-202).  Each constructor stands for one of the four
distinct `issues.push` message templates, carrying exactly the values the
source interpolates into the string:

* `tooManyInDay day count` renders
  "Suspicious pattern: count commits on day (too many in one day)";
* `sameTime time count` renders
  "Suspicious pattern: count commits at exactly the same time (time)";
* `uniformSpacing count` renders
  "Suspicious pattern: count commits are spaced at exactly equal intervals";
* `lateNight count pct` renders
  "Suspicious pattern: count commits (pct%) are between 1-5 AM". -/
inductive Issue where
  | tooManyInDay (day : ℤ) (count : Nat)
  | sameTime (time : ℤ) (count : Nat)
  | uniformSpacing (count : Nat)
  | lateNight (count : Nat) (pct : ℤ)
deriving DecidableEq

namespace Scheduler

/-- Distinct values of a list in first-occurrence order: the key set of a JS
`Map` built by insertion. -/
def firstKeys : List ℤ → List ℤ
  | [] => []
  | x :: xs => x :: firstKeys (xs.filter (fun y => y ≠ x))
termination_by l => l.length
decreasing_by
  simp only [List.length_cons]
  exact Nat.lt_succ_of_le (List.length_filter_le _ _)

/-- Calendar-day key of a commit (the `toFormat('yyyy-MM-dd')` grouping key;
two instants share the formatted day string iff they share the day
number). -/
def dayKey (t : ℤ) : ℤ := Int.fdiv t msPerDay

/-- Consecutive inter-commit gaps `commits[i].toMillis() - commits[i-1].toMillis()`
(scheduler.ts lines 180-183). -/
def intervalsOf (commits : List ScheduledCommit) : List ℤ :=
  (commits.zip commits.tail).map (fun p => p.2.date - p.1.date)

/-- Source: `src/shared/src/utils/scheduler.ts`, `checkScheduleAuthenticity`:
the four heuristic checks, pushed in source order. -/
def checkScheduleAuthenticity (commits : List ScheduledCommit) : List Issue :=
  let dayIssues : List Issue :=
    (firstKeys (commits.map (fun c => dayKey c.date))).filterMap (fun d =>
      let n := (commits.filter (fun c => dayKey c.date = d)).length
      if n > 15 then some (.tooManyInDay d n) else none)
  let timeIssues : List Issue :=
    (firstKeys (commits.map (fun c => c.date))).filterMap (fun t =>
      let n := (commits.filter (fun c => c.date = t)).length
      if n > 1 then some (.sameTime t n) else none)
  let spacingIssues : List Issue :=
    if commits.length > 3 then
      let intervals := intervalsOf commits
      let allSame := intervals.all (fun g => g = intervals.headD 0)
      if allSame ∧ commits.length > 5 then [.uniformSpacing commits.length] else []
    else []
  let lateNightCommits :=
    (commits.filter (fun c => 1 ≤ hourOf c.date ∧ hourOf c.date ≤ 5)).length
  let lateIssues : List Issue :=
    if (lateNightCommits : ℚ) > (commits.length : ℚ) * (25/100) then
      [.lateNight lateNightCommits
        (jsRound ((lateNightCommits : ℚ) / (commits.length : ℚ) * 100))]
    else []
  dayIssues ++ timeIssues ++ spacingIssues ++ lateIssues

end Scheduler

namespace Executor

/-- The result record of `processBatchedCommits`
(scheduler.ts lines 222-227). -/
structure BatchResult (E : Type) where
  succeeded : Nat
  failed : Nat
  errors : List E
deriving DecidableEq

/-- Trace of the executor's side effects: how many times `processFn` was
invoked, each `onProgress(processed, total)` call, and the duration passed
to each `setTimeout` wait between items and between batches. -/
structure BatchTrace where
  opCalls : Nat
  progressCalls : List (Nat × Nat)
  itemWaits : List Nat
  batchWaits : List Nat
deriving DecidableEq

/-- Source: scheduler.ts lines 234-247, the per-item closure mapped over one
batch: `processFn` is invoked for every item; a success increments
`succeeded` and (when the item is not the batch's last) waits
`delayBetweenItems`; a failure is caught, increments `failed` and appends
the error.  `idx` is the index within the batch, `blen` the batch length. -/
def runBatchItems {T E : Type} (op : T → Except E Unit) (delayItems : Nat) :
    List T → Nat → Nat → BatchResult E × BatchTrace → BatchResult E × BatchTrace
  | [], _, _, st => st
  | t :: ts, idx, blen, (r, tr) =>
    let tr1 := { tr with opCalls := tr.opCalls + 1 }
    let st2 : BatchResult E × BatchTrace :=
      match op t with
      | .ok _ =>
        ({ r with succeeded := r.succeeded + 1 },
         if idx < blen - 1 then { tr1 with itemWaits := tr1.itemWaits ++ [delayItems] }
         else tr1)
      | .error e =>
        ({ r with failed := r.failed + 1, errors := r.errors ++ [e] }, tr1)
    runBatchItems op delayItems ts (idx + 1) blen st2

/-- Source: scheduler.ts lines 230-256, the `for (i = 0; i < items.length;
i += batchSize)` loop.  `rem` is `items.slice(i)`; the loop exits when it is
empty.  `fuel` bounds the number of iterations: `batchSize = 0` makes the JS
loop spin forever (the slice never shrinks), which the model reports as
`none`. -/
def runBatches {T E : Type} (op : T → Except E Unit) (bs delayItems delayBatches total : Nat) :
    Nat → Nat → List T → BatchResult E × BatchTrace →
    Option (BatchResult E × BatchTrace)
  | _, _, [], st => some st
  | 0, _, _ :: _, _ => none
  | fuel + 1, i, rem@(_ :: _), st =>
    let batch := rem.take bs
    let st1 := runBatchItems op delayItems batch 0 batch.length st
    let st2 := (st1.1, { st1.2 with
      progressCalls := st1.2.progressCalls ++ [(min (i + bs) total, total)] })
    let st3 := if i + bs < total
      then (st2.1, { st2.2 with batchWaits := st2.2.batchWaits ++ [delayBatches] })
      else st2
    runBatches op bs delayItems delayBatches total fuel (i + bs) (rem.drop bs) st3

/-- Source: `src/shared/src/utils/scheduler.ts`, `processBatchedCommits`
(the spec's `runBatched`), with the source's default `batchSize = 10`,
`delayBetweenItems = 1000`, `delayBetweenBatches = 5000`.  Returns the
result record together with the side-effect trace; `none` marks the
diverging `batchSize = 0` loop. -/
def processBatchedCommits {T E : Type} (items : List T) (op : T → Except E Unit)
    (bs : Nat := 10) (delayItems : Nat := 1000) (delayBatches : Nat := 5000) :
    Option (BatchResult E × BatchTrace) :=
  runBatches op bs delayItems delayBatches items.length items.length 0 items
    (⟨0, 0, []⟩, ⟨0, [], [], []⟩)

end Executor

/-- An issue reported by `validatePattern`
(`src/shared/src/utils/pattern-utils.ts`).  Each constructor is one of the
five `issues.push` message templates with the interpolated values:

* `emptyPattern` renders "Pattern is empty";
* `emptyRows` renders "Pattern has empty rows";
* `rowLengthMismatch n len firstLen` renders
  "Row n has different length (len) than first row (firstLen)" where `n`
  is the 1-based row number the source prints;
* `invalidValue v row col` renders "Invalid intensity value v at position
  [row,col]. Values must be integers from 0-4.";
* `tooLarge rows cols` renders "Pattern is very large (rows × cols = …)". -/
inductive PatternIssue where
  | emptyPattern
  | emptyRows
  | rowLengthMismatch (rowNumber len firstLen : Nat)
  | invalidValue (value : ℚ) (row col : Nat)
  | tooLarge (rows cols : Nat)

namespace PatternUtils

/-- A cell value failing `Number.isInteger(value) && 0 <= value <= 4`
(pattern-utils.ts line 31): for a rational, `Number.isInteger` is
`den = 1`. -/
def isBadValue (v : ℚ) : Bool := ¬(v.den = 1 ∧ 0 ≤ v ∧ v ≤ 4)

/-- Source: pattern-utils.ts lines 21-26, the rectangularity loop from row
index 1; `i` carries the current row index. -/
def mismatchIssues (firstLen : Nat) : Nat → List (List ℚ) → List PatternIssue
  | _, [] => []
  | i, row :: rest =>
    (if row.length ≠ firstLen then [.rowLengthMismatch (i + 1) row.length firstLen]
     else []) ++ mismatchIssues firstLen (i + 1) rest

/-- Source: pattern-utils.ts lines 29-35, the value check over one row;
`c` carries the current column index. -/
def rowInvalidIssues (r : Nat) : Nat → List ℚ → List PatternIssue
  | _, [] => []
  | c, v :: vs =>
    (if isBadValue v then [.invalidValue v r c] else []) ++
      rowInvalidIssues r (c + 1) vs

/-- Source: pattern-utils.ts lines 28-36, the value check over all rows. -/
def gridInvalidIssues : Nat → List (List ℚ) → List PatternIssue
  | _, [] => []
  | r, row :: rest => rowInvalidIssues r 0 row ++ gridInvalidIssues (r + 1) rest

/-- Source: `src/shared/src/utils/pattern-utils.ts`, `validatePattern`:
the two short-circuiting structural checks, then rectangularity, value
range and the size warning, in source order. -/
def validatePattern (pattern : List (List ℚ)) : List PatternIssue :=
  if pattern.length = 0 then [.emptyPattern]
  else
    let firstRowLength := (pattern.headD []).length
    if firstRowLength = 0 then [.emptyRows]
    else
      mismatchIssues firstRowLength 1 (pattern.drop 1) ++
        gridInvalidIssues 0 pattern ++
        (if pattern.length * firstRowLength > 365 then
          [.tooLarge pattern.length firstRowLength]
         else [])

end PatternUtils

/-- Civil-calendar day number (days since 1970-01-01) of year `y`, month
`m` (1-12) and day-of-month `d`; `d` may be out of range (JS `Date`
normalizes, e.g. day 0 is the last day of the previous month) since the
formula is linear in `d`. -/
def daysFromCivil (y m d : ℤ) : ℤ :=
  let y1 := if m ≤ 2 then y - 1 else y
  let era := Int.fdiv y1 400
  let yoe := y1 - era * 400
  let mp := (m + 9) % 12
  let doy := Int.fdiv (153 * mp + 2) 5 + d - 1
  let doe := yoe * 365 + Int.fdiv yoe 4 - Int.fdiv yoe 100 + doy
  era * 146097 + doe - 719468

/-- Inverse of `daysFromCivil` on normalized dates: year, month (1-12) and
day-of-month of a day number. -/
def civilFromDays (z0 : ℤ) : ℤ × ℤ × ℤ :=
  let z := z0 + 719468
  let era := Int.fdiv z 146097
  let doe := z - era * 146097
  let yoe := Int.fdiv (doe - Int.fdiv doe 1460 + Int.fdiv doe 36524 - Int.fdiv doe 146096) 365
  let y := yoe + era * 400
  let doy := doe - (365 * yoe + Int.fdiv yoe 4 - Int.fdiv yoe 100)
  let mp := Int.fdiv (5 * doy + 2) 153
  let d := doy - Int.fdiv (153 * mp + 2) 5 + 1
  let m := mp + (if mp < 10 then 3 else -9)
  (if m ≤ 2 then y + 1 else y, m, d)

/-- A JS `Date` broken into the local components the code reads:
`getFullYear`, `getMonth` (0-11), `getDate` (1-31), `getHours`,
`getMinutes`, `getSeconds`. -/
structure JSDate where
  year : ℤ
  month : ℤ
  day : ℤ
  hour : ℤ
  minute : ℤ
  second : ℤ
deriving DecidableEq

namespace JSDate

/-- Day number of a `JSDate`. -/
def dayNumber (d : JSDate) : ℤ := daysFromCivil d.year (d.month + 1) d.day

/-- JS `date.getDay()`: 0 = Sunday .. 6 = Saturday (1970-01-01 was a
Thursday, weekday 4). -/
def getDay (d : JSDate) : ℤ := (dayNumber d + 4) % 7

/-- The normalized `JSDate` of a day number, with the given time of day. -/
def ofDayNumber (z h mi s : ℤ) : JSDate :=
  let c := civilFromDays z
  ⟨c.1, c.2.1 - 1, c.2.2, h, mi, s⟩

/-- JS `date.setDate(date.getDate() + n)`: calendar-day arithmetic with
normalization, keeping the time of day. -/
def addDays (d : JSDate) (n : ℤ) : JSDate :=
  ofDayNumber (dayNumber d + n) d.hour d.minute d.second

/-- JS `new Date(year, monthIndex, day)` (midnight), normalizing an
out-of-range `monthIndex` or `day`. -/
def newDate (y mIdx dd : ℤ) : JSDate :=
  ofDayNumber (daysFromCivil (y + Int.fdiv mIdx 12) ((mIdx % 12) + 1) dd) 0 0 0

end JSDate

namespace DateCmd

/-- Source: `src/graphify-cli/src/commands/date.ts`, `isWeekend`:
`getDay()` is 0 (Sunday) or 6 (Saturday). -/
def isWeekend (d : JSDate) : Bool := d.getDay = 0 ∨ d.getDay = 6

/-- Source: `src/graphify-cli/src/commands/date.ts`, `isBusinessHours`:
`hour >= 9 && hour <= 17`. -/
def isBusinessHours (d : JSDate) : Bool := d.hour ≥ 9 ∧ d.hour ≤ 17

/-- Source: `src/graphify-cli/src/commands/date.ts`, `isHoliday`, translated
clause by clause; `%` inside the Labor-Day and Thanksgiving rules is the JS
remainder (truncated, `Int.tmod`). -/
def isHoliday (date : JSDate) : Bool :=
  let month := date.month
  let day := date.day
  if month = 0 ∧ day = 1 then true
  else if month = 4 ∧
      (let eom := JSDate.newDate date.year 5 0
       let lastDay := eom.day
       let lastMonday := lastDay - eom.getDay
       day = lastMonday ∨
         (lastMonday < day ∧ day ≤ lastDay ∧
           (JSDate.newDate date.year 4 day).getDay = 1)) then true
  else if month = 6 ∧ day = 4 then true
  else if month = 8 ∧ day = 1 + Int.tmod (8 - (JSDate.newDate date.year 8 1).getDay) 7 then true
  else if month = 10 ∧ day = (1 + Int.tmod (4 - (JSDate.newDate date.year 10 1).getDay) 7) + 21 then true
  else if month = 11 ∧ day = 25 then true
  else false

/-- Source: `src/graphify-cli/src/commands/date.ts`,
`DateAdjustmentOptions` (source defaults: all three `true`). -/
structure DateAdjustmentOptions where
  avoidWeekends : Bool := true
  workHoursOnly : Bool := true
  avoidHolidays : Bool := true

/-- Source: `src/graphify-cli/src/commands/date.ts`,
`adjustDateForAuthenticity`: (1) weekend shift (Sunday forward to Monday,
Saturday back to Friday); (2) work-hours relocation (`setHours(9, ⌊r*45⌋, 0)`
before 9, `setHours(16 + round(r), ⌊r'*60⌋, 0)` after 17); (3) on a holiday,
advance one calendar day and recurse on the full adjustment.  The source has
no termination bound; `fuel` counts the remaining recursion depth and `none`
reports a recursion that never reaches a non-holiday. -/
def adjustDateForAuthenticity (rng : Nat → ℚ) (o : DateAdjustmentOptions) :
    Nat → JSDate → Nat → Option (JSDate × Nat)
  | 0, _, _ => none
  | fuel + 1, date, k =>
    let adjusted :=
      if o.avoidWeekends && isWeekend date then
        (if date.getDay = 0 then date.addDays 1 else date.addDays (-1))
      else date
    let hk : JSDate × Nat :=
      if o.workHoursOnly && !(isBusinessHours adjusted) then
        (if adjusted.hour < 9 then
          ({ adjusted with hour := 9, minute := ⌊rng k * 45⌋, second := 0 }, k + 1)
         else if adjusted.hour > 17 then
          ({ adjusted with hour := 16 + jsRound (rng k),
                           minute := ⌊rng (k + 1) * 60⌋, second := 0 }, k + 2)
         else (adjusted, k))
      else (adjusted, k)
    if o.avoidHolidays && isHoliday hk.1 then
      adjustDateForAuthenticity rng o fuel (hk.1.addDays 1) hk.2
    else some hk

end DateCmd

/-- Whether an `Except` is an error (a thrown JS exception). -/
def isError {α : Type} : Except String α → Bool
  | .error _ => true
  | .ok _ => false

/-- A degenerate random stream (every draw returns 0), used to evaluate the
model on concrete inputs. -/
def rng0 : Nat → ℚ := fun _ => 0

/-- Concrete options: a 1×1 pattern of intensity 1 over two days
(1970-01-01 to 1970-01-03, both weekdays), deterministic, no weekend
avoidance. -/
def oW : Scheduler.CommitScheduleOptions :=
  { startDate := 0, endDate := 172800000, pattern := [[1]], density := 1,
    randomize := false, workHoursOnly := true, avoidWeekends := false,
    maxCommitsPerDay := 5 }

/-- Concrete options: a 2×2 pattern over two days, so that cells with
linear index 2 and 3 fall beyond the date range and are truncated. -/
def oT : Scheduler.CommitScheduleOptions :=
  { startDate := 0, endDate := 172800000, pattern := [[1, 1], [1, 1]],
    density := 1, randomize := false, workHoursOnly := true,
    avoidWeekends := false, maxCommitsPerDay := 5 }

/-- Concrete options with a negative `maxCommitsPerDay`: the computed
per-cell count is `min (-1) 1 = -1` and `generateRandomCommitTimes`
throws. -/
def oNeg : Scheduler.CommitScheduleOptions :=
  { startDate := 0, endDate := 172800000, pattern := [[1]], density := 1,
    randomize := false, workHoursOnly := true, avoidWeekends := false,
    maxCommitsPerDay := -1 }

/-- A batch operation on the items `0..11` that fails exactly for the items
at indices 2 and 7 (the items equal their indices in `List.range 12`). -/
def exOp : Nat → Except Unit Unit :=
  fun n => if n = 2 ∨ n = 7 then .error () else .ok ()

/-- Six schedule events spaced at exactly 3600 seconds. -/
def evs6 : List Scheduler.ScheduledCommit :=
  (List.range 6).map (fun i => ⟨(i : ℤ) * 3600000, 1, 0, 0⟩)

/-- Five schedule events spaced at exactly 3600 seconds. -/
def evs5 : List Scheduler.ScheduledCommit :=
  (List.range 5).map (fun i => ⟨(i : ℤ) * 3600000, 1, 0, 0⟩)

/-- Whether a pattern issue is the out-of-range-value issue for the cell at
`(r, c)`. -/
def isInvalidAt (r c : Nat) : PatternIssue → Bool
  | .invalidValue _ r' c' => r' = r ∧ c' = c
  | _ => false

/-- Expected out-of-range issues for the cell at `(r, c)` given that cell's
value (`none` when the position does not exist): exactly one issue, naming
the value and the position, iff the value is bad. -/
def cellIssue (r c : Nat) : Option ℚ → List PatternIssue
  | some v => if PatternUtils.isBadValue v then [.invalidValue v r c] else []
  | none => []

/-- Expected out-of-range issues for the cell at `(r, c)` given the row
`r` (`none` when the row does not exist). -/
def gridCellIssue (r c : Nat) : Option (List ℚ) → List PatternIssue
  | some row => cellIssue r c (row.get? c)
  | none => []

instance : IsTotal Scheduler.ScheduledCommit (fun a b => a.date ≤ b.date) :=
  ⟨fun a b => le_total a.date b.date⟩

instance : IsTrans Scheduler.ScheduledCommit (fun a b => a.date ≤ b.date) :=
  ⟨fun _ _ _ hab hbc => le_trans hab hbc⟩

/-- C10: on an empty item list, `processBatchedCommits` returns
`{succeeded: 0, failed: 0, errors: []}`, never invokes the operation
(`opCalls = 0`), never invokes `onProgress` (`progressCalls = []`) and
introduces no delays (no item waits, no batch waits), for every operation,
batch size and delay configuration. -/
theorem processBatchedCommits_empty {T E : Type} (op : T → Except E Unit)
    (bs dI dB : Nat) :
    Executor.processBatchedCommits ([] : List T) op bs dI dB =
      some (⟨0, 0, []⟩, ⟨0, [], [], []⟩) := rfl

/-- Batch-level accounting for `runBatchItems`: every item of the batch is
settled exactly once (`succeeded + failed` grows by the batch length) and
the errors list stays in bijection with the failures. -/
theorem runBatchItems_counts {T E : Type} (op : T → Except E Unit) (dI : Nat) :
    ∀ (batch : List T) (idx blen : Nat) (st : Executor.BatchResult E × Executor.BatchTrace),
      st.1.errors.length = st.1.failed →
      (Executor.runBatchItems op dI batch idx blen st).1.errors.length =
          (Executor.runBatchItems op dI batch idx blen st).1.failed ∧
        (Executor.runBatchItems op dI batch idx blen st).1.succeeded +
            (Executor.runBatchItems op dI batch idx blen st).1.failed =
          st.1.succeeded + st.1.failed + batch.length := by
  intro batch
  induction batch with
  | nil => intro idx blen st h; exact ⟨h, rfl⟩
  | cons t ts ih =>
    intro idx blen st h
    obtain ⟨r, tr⟩ := st
    simp only [Executor.runBatchItems]
    cases hop : op t with
    | ok u =>
      have := ih (idx + 1) blen
        ({ r with succeeded := r.succeeded + 1 },
         if idx < blen - 1 then
           { tr with opCalls := tr.opCalls + 1, itemWaits := tr.itemWaits ++ [dI] }
         else { tr with opCalls := tr.opCalls + 1 }) h
      simp only [hop] at this ⊢
      refine ⟨this.1, ?_⟩
      rw [this.2]
      simp only [List.length_cons]
      omega
    | error e =>
      have := ih (idx + 1) blen
        ({ r with failed := r.failed + 1, errors := r.errors ++ [e] },
         { tr with opCalls := tr.opCalls + 1 })
        (by simp only [List.length_append, List.length_cons, List.length_nil, h])
      simp only [hop] at this ⊢
      refine ⟨this.1, ?_⟩
      rw [this.2]
      simp only [List.length_cons]
      omega

/-- Loop-level accounting for `runBatches`: with a positive batch size and
enough fuel, the loop always returns, the errors list stays in bijection
with the failures, and `succeeded + failed` grows by the number of
remaining items. -/
theorem runBatches_total {T E : Type} (op : T → Except E Unit)
    (bs dI dB total : Nat) (hbs : 1 ≤ bs) :
    ∀ (fuel : Nat) (rem : List T) (i : Nat)
      (st : Executor.BatchResult E × Executor.BatchTrace),
      rem.length ≤ fuel → st.1.errors.length = st.1.failed →
      ∃ st', Executor.runBatches op bs dI dB total fuel i rem st = some st' ∧
        st'.1.errors.length = st'.1.failed ∧
        st'.1.succeeded + st'.1.failed = st.1.succeeded + st.1.failed + rem.length := by
  intro fuel
  induction fuel with
  | zero =>
    intro rem i st hlen hinv
    have : rem = [] := List.eq_nil_of_length_eq_zero (Nat.le_zero.mp hlen)
    subst this
    exact ⟨st, rfl, hinv, rfl⟩
  | succ n ih =>
    intro rem i st hlen hinv
    cases rem with
    | nil => exact ⟨st, rfl, hinv, rfl⟩
    | cons x xs =>
      simp only [Executor.runBatches]
      set batch := (x :: xs).take bs with hbatch
      set st1 := Executor.runBatchItems op dI batch 0 batch.length st with hst1
      have hcounts := runBatchItems_counts op dI batch 0 batch.length st hinv
      set st3 : Executor.BatchResult E × Executor.BatchTrace :=
        if i + bs < total then
          (st1.1, { st1.2 with
            progressCalls := st1.2.progressCalls ++ [(min (i + bs) total, total)],
            batchWaits := st1.2.batchWaits ++ [dB] })
        else
          (st1.1, { st1.2 with
            progressCalls := st1.2.progressCalls ++ [(min (i + bs) total, total)] })
        with hst3
      have hst3fst : st3.1 = st1.1 := by
        by_cases hc : i + bs < total <;> simp [hst3, hc]
      have hdroplen : ((x :: xs).drop bs).length ≤ n := by
        simp only [List.length_drop]
        have := hlen
        simp only [List.length_cons] at this
        omega
      obtain ⟨st', hrun, hinv', hsum⟩ :=
        ih ((x :: xs).drop bs) (i + bs) st3 hdroplen (by rw [hst3fst]; exact hcounts.1)
      refine ⟨st', ?_, hinv', ?_⟩
      · rw [← hrun]
      · rw [hsum, hst3fst, hcounts.2]
        have h1 : batch.length = min bs (x :: xs).length := by
          rw [hbatch, List.length_take]
        have h2 : ((x :: xs).drop bs).length = (x :: xs).length - bs := by
          rw [List.length_drop]
        omega

/-- C3: for every item list and every operation (and any positive batch
size and delays), `processBatchedCommits` never throws: it returns a result
with `succeeded + failed` equal to the number of items and an errors list
whose length equals `failed`; and on 12 items with `batchSize = 5` and an
operation failing exactly at indices 2 and 7 it returns
`succeeded = 10, failed = 2` and two errors. -/
theorem processBatchedCommits_partial_failure :
    (∀ (T E : Type) (items : List T) (op : T → Except E Unit) (bs dI dB : Nat),
      1 ≤ bs →
      ∃ r tr, Executor.processBatchedCommits items op bs dI dB = some (r, tr) ∧
        r.succeeded + r.failed = items.length ∧ r.errors.length = r.failed) ∧
    (Executor.processBatchedCommits (List.range 12) exOp 5 1000 5000).map Prod.fst =
      some ⟨10, 2, [(), ()]⟩ := by
  constructor
  · intro T E items op bs dI dB hbs
    obtain ⟨st', hrun, hinv, hsum⟩ :=
      runBatches_total op bs dI dB items.length hbs items.length items 0
        (⟨0, 0, []⟩, ⟨0, [], [], []⟩) le_rfl rfl
    exact ⟨st'.1, st'.2, by rw [Executor.processBatchedCommits, hrun], by simpa using hsum, hinv⟩
  · decide

/-- C3 witness: the general statement applied to the concrete 12-item run
with `batchSize = 5` and failures at indices 2 and 7. -/
theorem processBatchedCommits_partial_failure_witness :
    (1 ≤ 5) ∧
    ∃ r tr, Executor.processBatchedCommits (List.range 12) exOp 5 1000 5000 = some (r, tr) ∧
      r.succeeded + r.failed = (List.range 12).length ∧ r.errors.length = r.failed :=
  ⟨by decide,
   processBatchedCommits_partial_failure.1 ℕ Unit (List.range 12) exOp 5 1000 5000
     (by decide)⟩

/-- C4 (code bug): `adjustDateForAuthenticity` never terminates on Saturday
2025-07-05 with `avoidWeekends` and `avoidHolidays` set: the weekend step
shifts the Saturday back to Friday 2025-07-04, Independence Day, and the
holiday step advances back onto the Saturday, for ever.  In the model: the
recursion exhausts any fuel, whatever the random stream. -/
theorem adjustDateForAuthenticity_diverges :
    ∀ (fuel : Nat) (rng : Nat → ℚ) (k : Nat),
      DateCmd.adjustDateForAuthenticity rng ⟨true, false, true⟩ fuel
        ⟨2025, 6, 5, 10, 0, 0⟩ k = none := by
  intro fuel
  induction fuel with
  | zero => intro rng k; rfl
  | succ n ih =>
    intro rng k
    have hstep :
        DateCmd.adjustDateForAuthenticity rng ⟨true, false, true⟩ (n + 1)
          ⟨2025, 6, 5, 10, 0, 0⟩ k =
        DateCmd.adjustDateForAuthenticity rng ⟨true, false, true⟩ n
          ⟨2025, 6, 5, 10, 0, 0⟩ k := rfl
    rw [hstep]
    exact ih rng k

/-- C8 counterexample: the claim says `isBusinessHours` holds iff the hour
lies in `[9, 17)`, but the `commands/date.ts` implementation returns `true`
at 17:30. -/
theorem isBusinessHours_seventeen :
    DateCmd.isBusinessHours ⟨2025, 0, 15, 17, 30, 0⟩ = true ∧
      ¬(9 ≤ (JSDate.mk 2025 0 15 17 30 0).hour ∧
        (JSDate.mk 2025 0 15 17 30 0).hour < 17) := by
  decide

/-- C8 (amended): the `utils/date-utils.ts` implementation returns `true`
iff the local hour lies in `[9, 17)`, while the `commands/date.ts`
implementation returns `true` iff the local hour lies in `[9, 17]`
(hour 17 included). -/
theorem isBusinessHours_ranges :
    (∀ d : JSDate, DateCmd.isBusinessHours d = true ↔ 9 ≤ d.hour ∧ d.hour ≤ 17) ∧
    (∀ t : ℤ, DateUtils.isBusinessHours t = true ↔ 9 ≤ hourOf t ∧ hourOf t < 17) := by
  constructor
  · intro d
    simp [DateCmd.isBusinessHours]
  · intro t
    simp [DateUtils.isBusinessHours]

/-- The generation loop emits exactly the requested number of instants. -/
theorem genCommitTimesLoop_length (rng : Nat → ℚ) (b : ℤ) (who : Bool) :
    ∀ (n k : Nat), (DateUtils.genCommitTimesLoop rng b who n k).1.length = n := by
  intro n
  induction n with
  | zero => intro k; rfl
  | succ m ih =>
    intro k
    simp only [DateUtils.genCommitTimesLoop, List.length_cons]
    rw [ih]

/-- With a non-negative count, `generateRandomCommitTimes` does not throw
and returns exactly `count` instants. -/
theorem generateRandomCommitTimes_ok (rng : Nat → ℚ) (base : ℤ) (who : Bool)
    (k : Nat) {count : ℤ} (hc : 0 ≤ count) :
    ∃ ts k', DateUtils.generateRandomCommitTimes rng base count who k = .ok (ts, k') ∧
      ts.length = count.toNat := by
  unfold DateUtils.generateRandomCommitTimes
  rw [if_neg (not_lt.mpr hc)]
  exact ⟨_, _, rfl, by
    rw [List.length_insertionSort, genCommitTimesLoop_length]⟩

/-- The noise factor is non-negative whenever the drawn random is. -/
theorem noiseFactor_nonneg {rndz : Bool} {r : ℚ} (hr : 0 ≤ r) :
    0 ≤ Scheduler.noiseFactor rndz r := by
  unfold Scheduler.noiseFactor
  split
  · linarith
  · norm_num

/-- With a positive cell value, non-negative density, random and cap, the
per-cell count is non-negative. -/
theorem commitsForCell_nonneg {v d r : ℚ} {cap : ℤ} (rndz : Bool)
    (hv : 0 < v) (hd : 0 ≤ d) (hr : 0 ≤ r) (hcap : 0 ≤ cap) :
    0 ≤ Scheduler.commitsForCell v d rndz r cap := by
  unfold Scheduler.commitsForCell
  exact le_min hcap
    (Int.ceil_nonneg (mul_nonneg (mul_nonneg hv.le hd) (noiseFactor_nonneg hr)))

/-- Every commit emitted for one cell carries that cell's indices. -/
theorem processCell_mem {rng : Nat → ℚ} {o : Scheduler.CommitScheduleOptions}
    {dpc : ℤ} {row col : Nat} {cv : Option ℚ} {k : Nat}
    {cs : List Scheduler.ScheduledCommit} {k' : Nat}
    (h : Scheduler.processCell rng o dpc row col cv k = .ok (cs, k')) :
    ∀ e ∈ cs, e.msgRow = row ∧ e.msgCol = col := by
  cases cv with
  | none =>
    simp only [Scheduler.processCell] at h
    split at h <;>
      (simp only [Except.ok.injEq, Prod.mk.injEq] at h
       obtain ⟨h1, _⟩ := h
       subst h1
       intro e he
       exact absurd he (List.not_mem_nil e))
  | some v =>
    simp only [Scheduler.processCell] at h
    split at h
    · simp only [Except.ok.injEq, Prod.mk.injEq] at h
      obtain ⟨h1, _⟩ := h
      subst h1
      intro e he
      exact absurd he (List.not_mem_nil e)
    · split at h
      · simp only [Except.ok.injEq, Prod.mk.injEq] at h
        obtain ⟨h1, _⟩ := h
        subst h1
        intro e he
        exact absurd he (List.not_mem_nil e)
      · split at h
        · exact absurd h (by simp)
        · simp only [Except.ok.injEq, Prod.mk.injEq] at h
          obtain ⟨h1, _⟩ := h
          subst h1
          intro e he
          obtain ⟨t, _, rfl⟩ := List.mem_map.mp he
          exact ⟨rfl, rfl⟩

/-- Every commit emitted by one row's loop comes from a cell whose linear
index passed the truncation check. -/
theorem processCells_mem {rng : Nat → ℚ} {o : Scheduler.CommitScheduleOptions}
    {dpc td : ℤ} {row : Nat} {cells : List ℚ} :
    ∀ (rem col k : Nat) {cs : List Scheduler.ScheduledCommit} {k'},
      Scheduler.processCells rng o dpc td row cells col rem k = .ok (cs, k') →
      ∀ e ∈ cs, e.msgRow = row ∧
        ((row * Scheduler.colsOf o + e.msgCol : ℕ) : ℤ) * dpc < td := by
  intro rem
  induction rem with
  | zero =>
    intro col k cs k' h
    simp only [Scheduler.processCells, Except.ok.injEq, Prod.mk.injEq] at h
    obtain ⟨h1, _⟩ := h
    subst h1
    intro e he
    exact absurd he (List.not_mem_nil e)
  | succ m ih =>
    intro col k cs k' h
    simp only [Scheduler.processCells] at h
    split at h
    · simp only [Except.ok.injEq, Prod.mk.injEq] at h
      obtain ⟨h1, _⟩ := h
      subst h1
      intro e he
      exact absurd he (List.not_mem_nil e)
    · next hguard =>
      split at h
      · exact absurd h (by simp)
      · next cs1 k1 hcell =>
        split at h
        · exact absurd h (by simp)
        · next rest k2 hrest =>
          simp only [Except.ok.injEq, Prod.mk.injEq] at h
          obtain ⟨h1, _⟩ := h
          subst h1
          intro e he
          rcases List.mem_append.mp he with he1 | he2
          · obtain ⟨hrow, hcol⟩ := processCell_mem hcell e he1
            refine ⟨hrow, ?_⟩
            rw [hcol]
            exact lt_of_not_ge hguard
          · exact ih (col + 1) k1 hrest e he2

/-- Every commit emitted by the row loop comes from a cell whose linear
index passed the truncation check. -/
theorem processRows_mem {rng : Nat → ℚ} {o : Scheduler.CommitScheduleOptions}
    {dpc td : ℤ} :
    ∀ (rows : List (List ℚ)) (row k : Nat) {cs : List Scheduler.ScheduledCommit} {k'},
      Scheduler.processRows rng o dpc td row rows k = .ok (cs, k') →
      ∀ e ∈ cs, ((e.msgRow * Scheduler.colsOf o + e.msgCol : ℕ) : ℤ) * dpc < td := by
  intro rows
  induction rows with
  | nil =>
    intro row k cs k' h
    simp only [Scheduler.processRows, Except.ok.injEq, Prod.mk.injEq] at h
    obtain ⟨h1, _⟩ := h
    subst h1
    intro e he
    exact absurd he (List.not_mem_nil e)
  | cons cells rest ih =>
    intro row k cs k' h
    simp only [Scheduler.processRows] at h
    split at h
    · exact absurd h (by simp)
    · next cs1 k1 hcells =>
      split at h
      · exact absurd h (by simp)
      · next more k2 hmore =>
        simp only [Except.ok.injEq, Prod.mk.injEq] at h
        obtain ⟨h1, _⟩ := h
        subst h1
        intro e he
        rcases List.mem_append.mp he with he1 | he2
        · obtain ⟨hrow, hbound⟩ := processCells_mem (Scheduler.colsOf o) 0 k hcells e he1
          rw [hrow]
          exact hbound
        · exact ih (row + 1) k1 hmore e he2

/-- The wrapped mapper succeeds exactly when the try-block body does, with
the same value. -/
theorem mapPattern_ok_iff {o : Scheduler.CommitScheduleOptions} {rng : Nat → ℚ}
    {evs : List Scheduler.ScheduledCommit} :
    Scheduler.mapPatternToSchedule o rng = .ok evs ↔
      Scheduler.mapPatternToScheduleBody o rng = .ok evs := by
  unfold Scheduler.mapPatternToSchedule
  cases hb : Scheduler.mapPatternToScheduleBody o rng <;> simp

/-- The catch-wrapper preserves whether an error was thrown. -/
theorem mapPattern_isError {o : Scheduler.CommitScheduleOptions} {rng : Nat → ℚ} :
    isError (Scheduler.mapPatternToSchedule o rng) =
      isError (Scheduler.mapPatternToScheduleBody o rng) := by
  unfold Scheduler.mapPatternToSchedule
  cases hb : Scheduler.mapPatternToScheduleBody o rng <;> simp [isError]

/-- Inversion for a successful mapper run: the structural checks passed and
the returned list is the sorted output of the row loop. -/
theorem mapBody_ok_elim {o : Scheduler.CommitScheduleOptions} {rng : Nat → ℚ}
    {evs : List Scheduler.ScheduledCommit}
    (h : Scheduler.mapPatternToScheduleBody o rng = .ok evs) :
    ∃ commits k,
      Scheduler.processRows rng o (Scheduler.daysPerCellOf o) (Scheduler.totalDaysOf o)
        0 o.pattern 0 = .ok (commits, k) ∧
      evs = List.insertionSort (fun a b => a.date ≤ b.date) commits := by
  unfold Scheduler.mapPatternToScheduleBody at h
  split at h
  · exact absurd h (by simp)
  · split at h
    · exact absurd h (by simp)
    · split at h
      · exact absurd h (by simp)
      · split at h
        · exact absurd h (by simp)
        · next commits k hrun =>
          simp only [Except.ok.injEq] at h
          exact ⟨commits, k, hrun, h.symm⟩

/-- A cell never throws when the density, the cap and the random stream are
non-negative. -/
theorem processCell_ok {rng : Nat → ℚ} {o : Scheduler.CommitScheduleOptions}
    (dpc : ℤ) (row col : Nat) (cv : Option ℚ) (k : Nat)
    (hden : 0 ≤ o.density) (hcap : 0 ≤ o.maxCommitsPerDay)
    (hrng : ∀ j, 0 ≤ rng j) :
    ∃ cs k', Scheduler.processCell rng o dpc row col cv k = .ok (cs, k') := by
  cases cv with
  | none =>
    simp only [Scheduler.processCell]
    split
    · exact ⟨_, _, rfl⟩
    · exact ⟨_, _, rfl⟩
  | some v =>
    simp only [Scheduler.processCell]
    split
    · exact ⟨_, _, rfl⟩
    · next hv =>
      split
      · exact ⟨_, _, rfl⟩
      · next k1 hk1 =>
        have hv' : 0 < v := lt_of_not_ge hv
        have hr : (0 : ℚ) ≤ (Scheduler.noiseDraw rng o.randomize k1).1 := by
          unfold Scheduler.noiseDraw
          split
          · exact hrng k1
          · exact le_rfl
        have hcnt : 0 ≤ Scheduler.commitsForCell v o.density o.randomize
            (Scheduler.noiseDraw rng o.randomize k1).1 o.maxCommitsPerDay :=
          commitsForCell_nonneg o.randomize hv' hden hr hcap
        obtain ⟨ts, k2, hgen, _⟩ :=
          generateRandomCommitTimes_ok rng _ o.workHoursOnly _ hcnt
        rw [hgen]
        exact ⟨_, _, rfl⟩

/-- A row's loop never throws when the density, the cap and the random
stream are non-negative. -/
theorem processCells_ok {rng : Nat → ℚ} {o : Scheduler.CommitScheduleOptions}
    {dpc td : ℤ} {row : Nat} {cells : List ℚ}
    (hden : 0 ≤ o.density) (hcap : 0 ≤ o.maxCommitsPerDay)
    (hrng : ∀ j, 0 ≤ rng j) :
    ∀ (rem col k : Nat),
      ∃ cs k', Scheduler.processCells rng o dpc td row cells col rem k = .ok (cs, k') := by
  intro rem
  induction rem with
  | zero => intro col k; exact ⟨_, _, rfl⟩
  | succ m ih =>
    intro col k
    simp only [Scheduler.processCells]
    split
    · exact ⟨_, _, rfl⟩
    · obtain ⟨cs1, k1, hcell⟩ := processCell_ok dpc row col (cells.get? col) k hden hcap hrng
      obtain ⟨rest, k2, hrest⟩ := ih (col + 1) k1
      rw [hcell]
      simp only [hrest]
      exact ⟨_, _, rfl⟩

/-- The row loop never throws when the density, the cap and the random
stream are non-negative. -/
theorem processRows_ok {rng : Nat → ℚ} {o : Scheduler.CommitScheduleOptions}
    {dpc td : ℤ}
    (hden : 0 ≤ o.density) (hcap : 0 ≤ o.maxCommitsPerDay)
    (hrng : ∀ j, 0 ≤ rng j) :
    ∀ (rows : List (List ℚ)) (row k : Nat),
      ∃ cs k', Scheduler.processRows rng o dpc td row rows k = .ok (cs, k') := by
  intro rows
  induction rows with
  | nil => intro row k; exact ⟨_, _, rfl⟩
  | cons cells rest ih =>
    intro row k
    simp only [Scheduler.processRows]
    obtain ⟨cs1, k1, hcells⟩ := processCells_ok hden hcap hrng (Scheduler.colsOf o) 0 k
    obtain ⟨more, k2, hmore⟩ := ih (row + 1) k1
    rw [hcells]
    simp only [hmore]
    exact ⟨_, _, rfl⟩

/-- When the structural checks pass and density, cap and random stream are
non-negative, the mapper returns normally. -/
theorem mapPattern_total {o : Scheduler.CommitScheduleOptions} {rng : Nat → ℚ}
    (hrows : o.pattern.length ≠ 0) (hcols : Scheduler.colsOf o ≠ 0)
    (htd : ¬ Scheduler.totalDaysOf o < 1)
    (hden : 0 ≤ o.density) (hcap : 0 ≤ o.maxCommitsPerDay)
    (hrng : ∀ j, 0 ≤ rng j) :
    ∃ evs, Scheduler.mapPatternToSchedule o rng = .ok evs := by
  obtain ⟨cs, k', hrun⟩ := @processRows_ok rng o (Scheduler.daysPerCellOf o)
    (Scheduler.totalDaysOf o) hden hcap hrng o.pattern 0 0
  have hbody : Scheduler.mapPatternToScheduleBody o rng =
      .ok (List.insertionSort (fun a b => a.date ≤ b.date) cs) := by
    unfold Scheduler.mapPatternToScheduleBody
    rw [if_neg hrows, if_neg hcols, if_neg htd, hrun]
  exact ⟨_, mapPattern_ok_iff.mpr hbody⟩

/-- C1: whenever `mapPatternToSchedule` returns normally, the returned
events are sorted ascending by timestamp: every adjacent pair satisfies
`e[i].date <= e[i+1].date`. -/
theorem mapPatternToSchedule_sorted (o : Scheduler.CommitScheduleOptions)
    (rng : Nat → ℚ) (evs : List Scheduler.ScheduledCommit)
    (h : Scheduler.mapPatternToSchedule o rng = .ok evs) :
    evs.Chain' (fun a b => a.date ≤ b.date) := by
  obtain ⟨commits, k, _, hevs⟩ := mapBody_ok_elim (mapPattern_ok_iff.mp h)
  subst hevs
  exact (List.sorted_insertionSort _ _).chain'

/-- C1 witness: a concrete run that returns normally, whose output is
sorted. -/
theorem mapPatternToSchedule_sorted_witness :
    ∃ evs, Scheduler.mapPatternToSchedule oW rng0 = .ok evs ∧
      evs.Chain' (fun a b => a.date ≤ b.date) := by
  obtain ⟨evs, he⟩ := @mapPattern_total oW rng0
    (by decide) (by decide) (by decide)
    (by norm_num [oW]) (by norm_num [oW]) (fun j => le_rfl)
  exact ⟨evs, he, mapPatternToSchedule_sorted oW rng0 evs he⟩

/-- C2: whenever `mapPatternToSchedule` returns normally, no returned event
references a cell whose row-major linear index `idx` satisfies
`idx * daysPerCell >= totalDays`: all trailing cells, in every row, are
silently dropped. -/
theorem mapPatternToSchedule_truncates (o : Scheduler.CommitScheduleOptions)
    (rng : Nat → ℚ) (evs : List Scheduler.ScheduledCommit)
    (h : Scheduler.mapPatternToSchedule o rng = .ok evs) :
    ∀ e ∈ evs, ((e.msgRow * Scheduler.colsOf o + e.msgCol : ℕ) : ℤ) *
        Scheduler.daysPerCellOf o < Scheduler.totalDaysOf o := by
  obtain ⟨commits, k, hrun, hevs⟩ := mapBody_ok_elim (mapPattern_ok_iff.mp h)
  subst hevs
  intro e he
  exact processRows_mem o.pattern 0 0 hrun e
    ((List.perm_insertionSort _ _).mem_iff.mp he)

/-- C2 witness: a 2×2 grid over a 2-day range (so cells of index 2 and 3
are truncated), run concretely; every returned event's cell index passes
the bound. -/
theorem mapPatternToSchedule_truncates_witness :
    ∃ evs, Scheduler.mapPatternToSchedule oT rng0 = .ok evs ∧
      ∀ e ∈ evs, ((e.msgRow * Scheduler.colsOf oT + e.msgCol : ℕ) : ℤ) *
        Scheduler.daysPerCellOf oT < Scheduler.totalDaysOf oT := by
  obtain ⟨evs, he⟩ := @mapPattern_total oT rng0
    (by decide) (by decide) (by decide)
    (by norm_num [oT]) (by norm_num [oT]) (fun j => le_rfl)
  exact ⟨evs, he, mapPatternToSchedule_truncates oT rng0 evs he⟩

/-- C7 counterexample: the claim lists the error cases exhaustively, but
with `maxCommitsPerDay = -1` (and a processed cell) the mapper throws even
though the pattern has rows and columns and the range spans 2 days. -/
theorem mapPatternToSchedule_negCap_error :
    isError (Scheduler.mapPatternToSchedule oNeg rng0) = true ∧
      oNeg.pattern.length ≠ 0 ∧ Scheduler.colsOf oNeg ≠ 0 ∧
      ¬ Scheduler.totalDaysOf oNeg < 1 := by
  refine ⟨?_, by decide, by decide, by decide⟩
  have h1 : Scheduler.totalDaysOf oNeg = 2 := by decide
  have h2 : Scheduler.daysPerCellOf oNeg = 2 := by decide
  have hc : Scheduler.commitsForCell 1 1 false 0 (-1) = -1 := by
    unfold Scheduler.commitsForCell Scheduler.noiseFactor
    norm_num
  simp only [oNeg] at h1 h2
  simp only [Scheduler.mapPatternToSchedule, Scheduler.mapPatternToScheduleBody, h1, h2,
    Scheduler.colsOf, oNeg, Scheduler.processRows, Scheduler.processCells,
    Scheduler.processCell, Scheduler.weekendGate, Scheduler.noiseDraw,
    DateUtils.generateRandomCommitTimes, rng0, hc]
  norm_num [isError, hc]

/-- C7 (amended): provided `density >= 0` and `maxCommitsPerDay >= 0`,
`mapPatternToSchedule` throws (returning no events) exactly when the
pattern has zero rows, its first row has zero columns, or the ceiling of
the day span is below 1.  (The original claim omitted the extra failure
with a negative `maxCommitsPerDay`, where the computed per-cell count is
negative and `generateRandomCommitTimes` throws; a negative `density` does
the same.) -/
theorem mapPatternToSchedule_failFast (o : Scheduler.CommitScheduleOptions)
    (rng : Nat → ℚ) (hden : 0 ≤ o.density) (hcap : 0 ≤ o.maxCommitsPerDay)
    (hrng : ∀ j, 0 ≤ rng j) :
    isError (Scheduler.mapPatternToSchedule o rng) = true ↔
      (o.pattern.length = 0 ∨ Scheduler.colsOf o = 0 ∨ Scheduler.totalDaysOf o < 1) := by
  rw [mapPattern_isError]
  constructor
  · intro h
    by_contra hn
    push_neg at hn
    obtain ⟨h1, h2, h3⟩ := hn
    obtain ⟨cs, k', hrun⟩ := @processRows_ok rng o (Scheduler.daysPerCellOf o)
      (Scheduler.totalDaysOf o) hden hcap hrng o.pattern 0 0
    unfold Scheduler.mapPatternToScheduleBody at h
    rw [if_neg h1, if_neg h2, if_neg (not_lt.mpr h3), hrun] at h
    simp [isError] at h
  · intro hdisj
    unfold Scheduler.mapPatternToScheduleBody
    by_cases h1 : o.pattern.length = 0
    · rw [if_pos h1]; rfl
    · rw [if_neg h1]
      by_cases h2 : Scheduler.colsOf o = 0
      · rw [if_pos h2]; rfl
      · rw [if_neg h2]
        by_cases h3 : Scheduler.totalDaysOf o < 1
        · rw [if_pos h3]; rfl
        · rcases hdisj with h | h | h
          · exact absurd h h1
          · exact absurd h h2
          · exact absurd h h3

/-- C7 witness: the amended equivalence instantiated at a concrete valid
configuration. -/
theorem mapPatternToSchedule_failFast_witness :
    (0 ≤ oW.density) ∧ (0 ≤ oW.maxCommitsPerDay) ∧ (∀ j, 0 ≤ rng0 j) ∧
      (isError (Scheduler.mapPatternToSchedule oW rng0) = true ↔
        (oW.pattern.length = 0 ∨ Scheduler.colsOf oW = 0 ∨
          Scheduler.totalDaysOf oW < 1)) :=
  ⟨by norm_num [oW], by norm_num [oW], fun j => le_rfl,
   mapPatternToSchedule_failFast oW rng0 (by norm_num [oW]) (by norm_num [oW])
     (fun j => le_rfl)⟩

/-- C5: for a processed cell, the noise factor is 1 when `randomize` is off
and lies in `[0.5, 1.5)` when on (for a `Math.random()` draw in `[0, 1)`);
the per-cell count is `min(maxEventsPerCell, ceil(intensity * density *
noise))` by definition of `commitsForCell`, and when intensity and density
are positive and the cap is at least 1 the count lies in
`[1, maxEventsPerCell]`; the generator then emits exactly that many
timestamps. -/
theorem commitsForCell_count (v d r : ℚ) (cap : ℤ) (rndz who : Bool)
    (rng : Nat → ℚ) (base : ℤ) (k : Nat)
    (hr0 : 0 ≤ r) (hr1 : r < 1) (hv : 0 < v) (hd : 0 < d) (hcap : 1 ≤ cap) :
    ((rndz = true → 1/2 ≤ Scheduler.noiseFactor rndz r ∧
        Scheduler.noiseFactor rndz r < 3/2) ∧
      (rndz = false → Scheduler.noiseFactor rndz r = 1)) ∧
    1 ≤ Scheduler.commitsForCell v d rndz r cap ∧
    Scheduler.commitsForCell v d rndz r cap ≤ cap ∧
    ∃ ts k', DateUtils.generateRandomCommitTimes rng base
        (Scheduler.commitsForCell v d rndz r cap) who k = .ok (ts, k') ∧
      (ts.length : ℤ) = Scheduler.commitsForCell v d rndz r cap := by
  have hnf : 1/2 ≤ Scheduler.noiseFactor rndz r ∨ Scheduler.noiseFactor rndz r = 1 := by
    unfold Scheduler.noiseFactor
    split
    · left; linarith
    · right; rfl
  have hnfpos : 0 < Scheduler.noiseFactor rndz r := by
    rcases hnf with h | h
    · linarith
    · rw [h]; norm_num
  have hceil : 1 ≤ ⌈v * d * Scheduler.noiseFactor rndz r⌉ :=
    Int.ceil_pos.mpr (mul_pos (mul_pos hv hd) hnfpos)
  have hcnt1 : 1 ≤ Scheduler.commitsForCell v d rndz r cap := by
    unfold Scheduler.commitsForCell
    exact le_min hcap hceil
  have hcntcap : Scheduler.commitsForCell v d rndz r cap ≤ cap := by
    unfold Scheduler.commitsForCell
    exact min_le_left _ _
  obtain ⟨ts, k', hgen, hlen⟩ :=
    generateRandomCommitTimes_ok rng base who k (le_trans zero_le_one hcnt1)
  refine ⟨⟨?_, ?_⟩, hcnt1, hcntcap, ts, k', hgen, ?_⟩
  · intro hrn
    unfold Scheduler.noiseFactor
    rw [if_pos hrn]
    constructor
    · linarith
    · linarith
  · intro hrn
    unfold Scheduler.noiseFactor
    rw [hrn]
    rfl
  · rw [hlen]
    exact Int.toNat_of_nonneg (le_trans zero_le_one hcnt1)

/-- C5 witness: the statement instantiated at intensity 1, density 1, a
drawn random of 1/2, cap 5 and `randomize` on. -/
theorem commitsForCell_count_witness :
    (0 ≤ (1/2 : ℚ)) ∧ ((1/2 : ℚ) < 1) ∧ (0 < (1 : ℚ)) ∧ (1 ≤ (5 : ℤ)) ∧
    (((true = true → 1/2 ≤ Scheduler.noiseFactor true (1/2) ∧
        Scheduler.noiseFactor true (1/2) < 3/2) ∧
      (true = false → Scheduler.noiseFactor true (1/2) = 1)) ∧
    1 ≤ Scheduler.commitsForCell 1 1 true (1/2) 5 ∧
    Scheduler.commitsForCell 1 1 true (1/2) 5 ≤ 5 ∧
    ∃ ts k', DateUtils.generateRandomCommitTimes rng0 0
        (Scheduler.commitsForCell 1 1 true (1/2) 5) true 0 = .ok (ts, k') ∧
      (ts.length : ℤ) = Scheduler.commitsForCell 1 1 true (1/2) 5) :=
  ⟨by norm_num, by norm_num, by norm_num, by norm_num,
   commitsForCell_count 1 1 (1/2) 5 true true rng0 0 0
     (by norm_num) (by norm_num) (by norm_num) (by norm_num) (by norm_num)⟩

/-- C6: the uniform-spacing issue is reported when the list has more than 5
events and every consecutive inter-event gap is identical, and is never
reported for a list of 5 or fewer events. -/
theorem checkScheduleAuthenticity_uniform (commits : List Scheduler.ScheduledCommit) :
    ((5 < commits.length ∧
        ∀ g1 ∈ Scheduler.intervalsOf commits, ∀ g2 ∈ Scheduler.intervalsOf commits,
          g1 = g2) →
      Issue.uniformSpacing commits.length ∈ Scheduler.checkScheduleAuthenticity commits) ∧
    (commits.length ≤ 5 →
      ∀ n, Issue.uniformSpacing n ∉ Scheduler.checkScheduleAuthenticity commits) := by
  constructor
  · rintro ⟨h5, hall⟩
    have h3 : commits.length > 3 := by omega
    have hsame : (Scheduler.intervalsOf commits).all
        (fun g => g = (Scheduler.intervalsOf commits).headD 0) = true := by
      rw [List.all_eq_true]
      intro g hg
      rw [decide_eq_true_iff]
      cases hint : Scheduler.intervalsOf commits with
      | nil => rw [hint] at hg; exact absurd hg (List.not_mem_nil g)
      | cons a t =>
        rw [List.headD_cons]
        exact hall g hg a (by rw [hint]; exact List.mem_cons_self a t)
    simp only [Scheduler.checkScheduleAuthenticity]
    rw [if_pos h3, if_pos (by exact ⟨hsame, h5⟩)]
    simp
  · intro h5 n hmem
    simp only [Scheduler.checkScheduleAuthenticity, List.mem_append] at hmem
    rcases hmem with ((hd | ht) | hsp) | hl
    · obtain ⟨d, -, heq⟩ := List.mem_filterMap.mp hd
      split at heq
      · simp at heq
      · simp at heq
    · obtain ⟨t, -, heq⟩ := List.mem_filterMap.mp ht
      split at heq
      · simp at heq
      · simp at heq
    · split at hsp
      · split at hsp
        · next hcond => omega
        · exact absurd hsp (List.not_mem_nil _)
      · exact absurd hsp (List.not_mem_nil _)
    · split at hl
      · simp at hl
      · exact absurd hl (List.not_mem_nil _)

/-- C6 witness: six events exactly 3600 seconds apart trigger the
uniform-spacing issue; five events at the same spacing do not. -/
theorem checkScheduleAuthenticity_uniform_witness :
    ((5 < evs6.length ∧
        ∀ g1 ∈ Scheduler.intervalsOf evs6, ∀ g2 ∈ Scheduler.intervalsOf evs6, g1 = g2) ∧
      Issue.uniformSpacing evs6.length ∈ Scheduler.checkScheduleAuthenticity evs6) ∧
    ((evs5.length ≤ 5) ∧
      ∀ n, Issue.uniformSpacing n ∉ Scheduler.checkScheduleAuthenticity evs5) := by
  refine ⟨⟨⟨by decide, by decide⟩, ?_⟩, by decide, ?_⟩
  · exact (checkScheduleAuthenticity_uniform evs6).1 ⟨by decide, by decide⟩
  · exact (checkScheduleAuthenticity_uniform evs5).2 (by decide)

/-- The rectangularity issues never match an out-of-range-value filter. -/
theorem filter_mismatchIssues (fl r c : Nat) :
    ∀ (rows : List (List ℚ)) (i : Nat),
      (PatternUtils.mismatchIssues fl i rows).filter (isInvalidAt r c) = [] := by
  intro rows
  induction rows with
  | nil => intro i; rfl
  | cons row rest ih =>
    intro i
    simp only [PatternUtils.mismatchIssues, List.filter_append, ih (i + 1)]
    split <;> simp [isInvalidAt]

/-- Filtering the head cell's contribution of the value-check loop. -/
theorem filter_headInvalid (r c rr c0 : Nat) (v : ℚ) :
    (if PatternUtils.isBadValue v then [PatternIssue.invalidValue v rr c0]
     else []).filter (isInvalidAt r c) =
      if rr = r ∧ c0 = c then
        (if PatternUtils.isBadValue v then [PatternIssue.invalidValue v r c] else [])
      else [] := by
  by_cases h : rr = r ∧ c0 = c
  · obtain ⟨h1, h2⟩ := h
    subst h1
    subst h2
    by_cases hb : PatternUtils.isBadValue v
    · simp [hb, isInvalidAt]
    · simp [hb]
  · rw [if_neg h]
    by_cases hb : PatternUtils.isBadValue v
    · simp [hb, isInvalidAt, h]
    · simp [hb]

/-- Filtering one row's value-check issues down to the cell `(r, c)`. -/
theorem filter_rowInvalidIssues (r c rr : Nat) :
    ∀ (row : List ℚ) (c0 : Nat),
      (PatternUtils.rowInvalidIssues rr c0 row).filter (isInvalidAt r c) =
        if rr = r then cellIssue r c (if c0 ≤ c then row.get? (c - c0) else none)
        else [] := by
  intro row
  induction row with
  | nil =>
    intro c0
    simp only [PatternUtils.rowInvalidIssues, List.filter_nil]
    split
    · split <;> rfl
    · rfl
  | cons v vs ih =>
    intro c0
    simp only [PatternUtils.rowInvalidIssues, List.filter_append, ih (c0 + 1),
      filter_headInvalid]
    by_cases hrr : rr = r
    · subst hrr
      by_cases hc0 : c0 = c
      · subst hc0
        have h1 : ¬ (c0 + 1 ≤ c0) := by omega
        simp [h1, cellIssue, Nat.sub_self]
      · have h2 : ¬ (rr = rr ∧ c0 = c) := fun hcon => hc0 hcon.2
        by_cases hlt : c0 < c
        · have h3 : c0 + 1 ≤ c := by omega
          have h4 : c0 ≤ c := by omega
          have h5 : c - c0 = (c - (c0 + 1)) + 1 := by omega
          simp [h2, hc0, h3, h4, h5]
        · have h3 : ¬ (c0 + 1 ≤ c) := by omega
          have h4 : ¬ (c0 ≤ c) := by omega
          simp [h2, hc0, h3, h4, cellIssue]
    · have h2 : ¬ (rr = r ∧ c0 = c) := fun hcon => hrr hcon.1
      simp [h2, hrr]

/-- Filtering the whole value-check pass down to the cell `(r, c)`. -/
theorem filter_gridInvalidIssues (r c : Nat) :
    ∀ (rows : List (List ℚ)) (r0 : Nat),
      (PatternUtils.gridInvalidIssues r0 rows).filter (isInvalidAt r c) =
        gridCellIssue r c (if r0 ≤ r then rows.get? (r - r0) else none) := by
  intro rows
  induction rows with
  | nil =>
    intro r0
    simp only [PatternUtils.gridInvalidIssues, List.filter_nil]
    split <;> rfl
  | cons row rest ih =>
    intro r0
    simp only [PatternUtils.gridInvalidIssues, List.filter_append, ih (r0 + 1),
      filter_rowInvalidIssues r c r0 row 0]
    by_cases hr0 : r0 = r
    · subst hr0
      have h1 : ¬ (r0 + 1 ≤ r0) := by omega
      simp [h1, gridCellIssue, Nat.sub_self]
    · by_cases hlt : r0 < r
      · have h1 : r0 + 1 ≤ r := by omega
        have h2 : r0 ≤ r := by omega
        have h3 : r - r0 = (r - (r0 + 1)) + 1 := by omega
        simp [hr0, h1, h2, h3, gridCellIssue]
      · have h1 : ¬ (r0 + 1 ≤ r) := by omega
        have h2 : ¬ (r0 ≤ r) := by omega
        simp [hr0, h1, h2, gridCellIssue]

/-- C9: for every grid passing the structural checks, `validatePattern`
emits exactly one out-of-range issue per cell whose value is not an integer
in `[0, 4]` — the issue names the cell's value and position — and no such
issue for in-range cells or positions outside the grid; and
`validatePattern [[5]]` returns exactly the one issue citing value 5 at
position `[0,0]`. -/
theorem validatePattern_range :
    (∀ (p : List (List ℚ)) (r c : Nat), p.length ≠ 0 → (p.headD []).length ≠ 0 →
      (PatternUtils.validatePattern p).filter (isInvalidAt r c) =
        gridCellIssue r c (p.get? r)) ∧
    PatternUtils.validatePattern [[5]] = [PatternIssue.invalidValue 5 0 0] := by
  constructor
  · intro p r c hrows hcols
    unfold PatternUtils.validatePattern
    rw [if_neg hrows, if_neg hcols, List.filter_append, List.filter_append,
      filter_mismatchIssues, filter_gridInvalidIssues]
    have hsize : (if p.length * (p.headD []).length > 365 then
        [PatternIssue.tooLarge p.length (p.headD []).length]
       else ([] : List PatternIssue)).filter (isInvalidAt r c) = [] := by
      split <;> simp [isInvalidAt]
    rw [hsize]
    rw [if_pos (Nat.zero_le r), Nat.sub_zero]
    simp
  · have hb : PatternUtils.isBadValue 5 = true := by
      unfold PatternUtils.isBadValue
      rw [decide_eq_true_iff]
      rintro ⟨-, -, h3⟩
      norm_num at h3
    simp [PatternUtils.validatePattern, PatternUtils.mismatchIssues,
      PatternUtils.gridInvalidIssues, PatternUtils.rowInvalidIssues, hb]

/-- C9 witness: the filtered result at position `(0,0)` of
`validatePattern [[5]]`, obtained from the general statement. -/
theorem validatePattern_range_witness :
    (([[(5 : ℚ)]] : List (List ℚ)).length ≠ 0) ∧
    ((([[(5 : ℚ)]] : List (List ℚ)).headD []).length ≠ 0) ∧
    (PatternUtils.validatePattern [[5]]).filter (isInvalidAt 0 0) =
      gridCellIssue 0 0 (([[(5 : ℚ)]] : List (List ℚ)).get? 0) :=
  ⟨by decide, by decide, validatePattern_range.1 [[5]] 0 0 (by decide) (by decide)⟩

end Graphify
